import Mathlib

/-!
Verification development for the validation-error normalizer of
`read-config-file` (`src/ajvErrorNormalizer.ts`): the error-tree merge
(`filterErrors`), the schema text renderer (`formatSchema`,
`getSchemaPart`, `getSchemaPartText`), the message formatter
(`formatValidationError`) and the entry point (`normaliseErrorMessages`).

JavaScript values handled by the printer are embedded as a `Json`
inductive; absent object properties are modelled as lookup failure
(`Option`), and JavaScript truthiness is made explicit.  The possibly
non-terminating recursions of the source (the `$ref`-resolution `while`
loop and the mutually reentrant `formatSchema`) are embedded with an
explicit fuel parameter returning `Option`, so that divergence of the
source is observable as `none` for every fuel.
-/

namespace ReadConfigFile

/-- A JavaScript/JSON value, as far as the printer inspects it. -/
inductive Json where
  | null
  | bool (b : Bool)
  | num (n : Int)
  | str (s : String)
  | arr (elems : List Json)
  | obj (fields : List (String × Json))

instance : Inhabited Json := ⟨Json.null⟩

mutual

/-- Structural equality of values (the embedding of the `===` /
`Array.prototype.indexOf` comparisons the printer performs on schema
nodes). -/
def Json.beq : Json → Json → Bool
  | .null, .null => true
  | .bool a, .bool b => a == b
  | .num a, .num b => a == b
  | .str a, .str b => a == b
  | .arr a, .arr b => Json.beqList a b
  | .obj a, .obj b => Json.beqFields a b
  | _, _ => false

def Json.beqList : List Json → List Json → Bool
  | [], [] => true
  | x :: xs, y :: ys => Json.beq x y && Json.beqList xs ys
  | _, _ => false

def Json.beqFields : List (String × Json) → List (String × Json) → Bool
  | [], [] => true
  | f :: fs, g :: gs => f.1 == g.1 && Json.beq f.2 g.2 && Json.beqFields fs gs
  | _, _ => false

end

instance : BEq Json := ⟨Json.beq⟩

/-- Property lookup `j[key]`; `none` models JavaScript `undefined`.
Object keys are assumed unique (as in parsed JSON documents). -/
def Json.get : Json → String → Option Json
  | .obj fields, key => (fields.find? (fun f => f.1 == key)).map Prod.snd
  | _, _ => none

/-- JavaScript truthiness of a value (an absent property, i.e. `none`
at use sites, is falsy as well). -/
def Json.truthy : Json → Bool
  | .null => false
  | .bool b => b
  | .num n => n != 0
  | .str s => s != ""
  | .arr _ => true
  | .obj _ => true

/-- The elements of an array value; non-arrays yield `[]`. -/
def Json.asArr : Json → List Json
  | .arr elems => elems
  | _ => []

/-- Embedding of `Object.keys`: property names of an object, index keys of an array. -/
def Json.objKeys : Json → List String
  | .obj fields => fields.map Prod.fst
  | .arr elems => (List.range elems.length).map toString
  | _ => []

/-- The underlying string of a string value (used where the source
assumes a string, e.g. a `$ref` path). -/
def Json.toStr : Json → String
  | .str s => s
  | _ => ""

/-- One hexadecimal digit. -/
def hexDigit (n : Nat) : Char :=
  if n < 10 then Char.ofNat (48 + n) else Char.ofNat (87 + n)

/-- Escaping of a single character inside a `JSON.stringify` string. -/
def escapeJsonChar (c : Char) : String :=
  if c = '"' then "\\\""
  else if c = '\\' then "\\\\"
  else if c = '\n' then "\\n"
  else if c = '\t' then "\\t"
  else if c = '\r' then "\\r"
  else if c = Char.ofNat 8 then "\\b"
  else if c = Char.ofNat 12 then "\\f"
  else if c.toNat < 32 then
    "\\u00" ++ String.mk [hexDigit (c.toNat / 16), hexDigit (c.toNat % 16)]
  else String.singleton c

/-- Rendering of a string literal by `JSON.stringify`, quotes included. -/
def quoteJson (s : String) : String :=
  "\"" ++ String.join (s.data.map escapeJsonChar) ++ "\""

mutual

/-- Compact `JSON.stringify(v)` (no indent argument). -/
def jsonStringify : Json → String
  | .null => "null"
  | .bool b => if b then "true" else "false"
  | .num n => toString n
  | .str s => quoteJson s
  | .arr elems => "[" ++ String.intercalate "," (jsonStringifyList elems) ++ "]"
  | .obj fields => "\x7b" ++ String.intercalate "," (jsonStringifyFields fields) ++ "\x7d"

def jsonStringifyList : List Json → List String
  | [] => []
  | x :: xs => jsonStringify x :: jsonStringifyList xs

def jsonStringifyFields : List (String × Json) → List String
  | [] => []
  | f :: fs => (quoteJson f.1 ++ ":" ++ jsonStringify f.2) :: jsonStringifyFields fs

end

mutual

/-- Pretty `JSON.stringify(v, null, 2)` at current indentation `ind`. -/
def jsonPretty (ind : String) : Json → String
  | .null => "null"
  | .bool b => if b then "true" else "false"
  | .num n => toString n
  | .str s => quoteJson s
  | .arr [] => "[]"
  | .arr (x :: xs) =>
    "[\n" ++ String.intercalate ",\n" (jsonPrettyList (ind ++ "  ") (x :: xs)) ++ "\n" ++ ind ++ "]"
  | .obj [] => "\x7b\x7d"
  | .obj (f :: fs) =>
    "\x7b\n" ++ String.intercalate ",\n" (jsonPrettyFields (ind ++ "  ") (f :: fs)) ++ "\n" ++ ind ++ "\x7d"

def jsonPrettyList (ind : String) : List Json → List String
  | [] => []
  | x :: xs => (ind ++ jsonPretty ind x) :: jsonPrettyList ind xs

def jsonPrettyFields (ind : String) : List (String × Json) → List String
  | [] => []
  | f :: fs => (ind ++ quoteJson f.1 ++ ": " ++ jsonPretty ind f.2) :: jsonPrettyFields ind fs

end

/-! ## String helpers used by the printer -/

/-- Tests whether `needle` is a prefix of `hay` (character lists). -/
def listStartsWith : List Char → List Char → Bool
  | [], _ => true
  | _ :: _, [] => false
  | a :: as, b :: bs => a == b && listStartsWith as bs

/-- Tests whether `needle` occurs somewhere in `hay` (character lists). -/
def hasSubList (needle : List Char) : List Char → Bool
  | [] => listStartsWith needle []
  | b :: bs => listStartsWith needle (b :: bs) || hasSubList needle bs

/-- Embedding of `String.prototype.includes`: `pat` occurs as a substring of `s`. -/
def jsIncludes (s pat : String) : Bool :=
  hasSubList pat.data s.data

/-- Replace every newline that is not the string's final character by a
newline followed by `pre` (the `/\n(?!$)/g` replacement of `indent`). -/
def indentChars (pre : List Char) : List Char → List Char
  | [] => []
  | ['\n'] => ['\n']
  | '\n' :: c :: rest => '\n' :: (pre ++ indentChars pre (c :: rest))
  | c :: rest => c :: indentChars pre rest

/-- The function `indent` of the source. -/
def indent (str pre : String) (isFirstLine : Bool) : String :=
  if isFirstLine then pre ++ String.mk (indentChars pre.data str.data)
  else String.mk (indentChars pre.data str.data)

/-- Order-preserving duplicate elimination keeping first occurrences
(the `Array.from(new Set(...))` of the `oneOf`/`anyOf` branch). -/
def dedupFirst : List String → List String :=
  go []
where
  go (seen : List String) : List String → List String
    | [] => []
    | x :: xs => if seen.contains x then go seen xs else x :: go (seen ++ [x]) xs

/-- Splitting a character list at every occurrence of `sep`
(embedding of `String.prototype.split` with a one-character separator,
which is the only way the source calls it). -/
def splitChars (sep : Char) : List Char → List (List Char)
  | [] => [[]]
  | c :: rest =>
    if c == sep then [] :: splitChars sep rest
    else
      match splitChars sep rest with
      | [] => [[c]]
      | g :: gs => (c :: g) :: gs

/-- `path.split("/")` of the source. -/
def jsSplitSlash (path : String) : List String :=
  (splitChars '/' path.data).map String.mk

/-! ## Schema text renderer -/

/-- The function `getSchemaPart`: split the `$ref` path on `/`, skip the first
segment, and descend through the root document, staying put on a missing
or falsy key. -/
def getSchemaPart (root : Json) (path : String) : Json :=
  let pathList := (jsSplitSlash path).take path.length
  (pathList.drop 1).foldl
    (fun part seg =>
      match part.get seg with
      | some inner => if inner.truthy then inner else part
      | none => part)
    root

/-- The `while (schemaPart.$ref != null)` loop of `getSchemaPartText`,
with fuel: `none` means the loop did not finish within `fuel` steps
(the source has no cycle guard here and would loop forever). -/
def resolveRefs (root : Json) : Nat → Json → Option Json
  | 0, _ => none
  | Nat.succ fuel, part =>
    match part.get "$ref" with
    | some r => if r != Json.null then resolveRefs root fuel (getSchemaPart root r.toStr) else some part
    | none => some part

/-- The function `formatSchema`, with fuel: every recursive call
consumes one unit, so `none` for all fuels is divergence of the source.
`prevSchemas` accumulates, exactly as in the source, the `$ref`-holding
nodes, and the guard compares the resolved node against that list. -/
def formatSchemaF (root : Json) : Nat → Json → List Json → Option String
  | 0, _, _ => none
  | Nat.succ fuel, schema, prevSchemas =>
    let innerNoSelf := fun (inner : Json) => formatSchemaF root fuel inner prevSchemas
    let innerSelf := fun (inner : Json) =>
      if prevSchemas.contains inner then some "(recursive)"
      else formatSchemaF root fuel inner (prevSchemas ++ [schema])
    let ty := (schema.get "type").getD Json.null
    if ty == Json.str "string" then
      some (match schema.get "minLength" with
        | some (.num n) =>
          if n == 1 then "non-empty string"
          else if n > 1 then "string (min length " ++ toString n ++ ")"
          else "string"
        | _ => "string")
    else if ty == Json.str "boolean" then some "boolean"
    else if ty == Json.str "number" then some "number"
    else if ty == Json.str "object" then
      if ((schema.get "properties").getD Json.null).truthy then
        let reqList := ((schema.get "required").getD Json.null).asArr
        let entries := ((schema.get "properties").getD Json.null).objKeys.map
          (fun name => if reqList.any (fun v => v == Json.str name) then name else name ++ "?")
        let entries := entries ++
          (if ((schema.get "additionalProperties").getD Json.null).truthy then ["..."] else [])
        some ("object \x7b " ++ String.intercalate ", " entries ++ " \x7d")
      else if ((schema.get "additionalProperties").getD Json.null).truthy then
        (innerNoSelf ((schema.get "additionalProperties").getD Json.null)).map
          (fun s => "object \x7b <key>: " ++ s ++ " \x7d")
      else some "object"
    else if ty == Json.str "array" then
      (innerNoSelf ((schema.get "items").getD Json.null)).map (fun s => "[" ++ s ++ "]")
    else if schema.get "instanceof" == some (Json.str "Function") then some "function"
    else if schema.get "instanceof" == some (Json.str "RegExp") then some "RegExp"
    else if (schema.get "$ref").getD Json.null != Json.null then
      innerSelf (getSchemaPart root ((schema.get "$ref").getD Json.null).toStr)
    else if ((schema.get "allOf").getD Json.null).truthy then
      (((schema.get "allOf").getD Json.null).asArr.mapM innerNoSelf).map (String.intercalate " & ")
    else if ((schema.get "oneOf").getD Json.null).truthy then
      (((schema.get "oneOf").getD Json.null).asArr.mapM innerNoSelf).map (String.intercalate " | ")
    else if ((schema.get "anyOf").getD Json.null).truthy then
      (((schema.get "anyOf").getD Json.null).asArr.mapM innerNoSelf).map (String.intercalate " | ")
    else if ((schema.get "enum").getD Json.null).truthy then
      some (String.intercalate " | " (((schema.get "enum").getD Json.null).asArr.map jsonStringify))
    else some (jsonPretty "" schema)

/-- The function `getSchemaPartText`: optional descent,
`$ref` resolution loop, `formatSchema`, then the first paragraph of the
`description` appended on its own line. -/
def getSchemaPartTextF (root : Json) (fuel : Nat) (schemaPart0 : Json)
    (additionalPath : Option (List String)) : Option String :=
  let part1 :=
    match additionalPath with
    | some segs =>
      segs.foldl
        (fun part seg =>
          match part.get seg with
          | some inner => if inner.truthy then inner else part
          | none => part)
        schemaPart0
    | none => schemaPart0
  match resolveRefs root fuel part1 with
  | none => none
  | some part =>
    (formatSchemaF root fuel part []).map (fun schemaText =>
      match part.get "description" with
      | some (.str d) =>
        let d1 := d.trim
        schemaText ++ "\n" ++ ((d1.splitOn "\n\n").headD d1) ++ "\n"
      | _ => schemaText)

/-! ## Validation error records -/

/-- An ajv `ErrorObject` as the normalizer reads it: `dataPath`,
`keyword`, the keyword-specific `params` payload, the default
`message`, the `parentSchema` node, and the optional `children`
sequence that `filterErrors` populates (and combinator keywords may
carry).  `none` models an absent / nulled `children` field. -/
inductive ErrorObject where
  | mk (dataPath keyword : String) (params : Json) (message : String)
       (parentSchema : Json) (children : Option (List ErrorObject))

def ErrorObject.dataPath : ErrorObject → String
  | .mk d _ _ _ _ _ => d

def ErrorObject.keyword : ErrorObject → String
  | .mk _ k _ _ _ _ => k

def ErrorObject.params : ErrorObject → Json
  | .mk _ _ p _ _ _ => p

def ErrorObject.message : ErrorObject → String
  | .mk _ _ _ m _ _ => m

def ErrorObject.parentSchema : ErrorObject → Json
  | .mk _ _ _ _ s _ => s

def ErrorObject.children : ErrorObject → Option (List ErrorObject)
  | .mk _ _ _ _ _ c => c

/-- Assignment to the `children` field, all other fields kept. -/
def ErrorObject.setChildren : ErrorObject → Option (List ErrorObject) → ErrorObject
  | .mk d k p m s _, c => .mk d k p m s c

mutual

/-- The enumerable fields of an error record as a JSON object, for the
`JSON.stringify(error, null, 2)` fallback of the formatter (the real
ajv record carries further fields, e.g. `schemaPath`, that the model
does not track). -/
def errorToJson : ErrorObject → Json
  | .mk d k p m s c =>
    Json.obj ([("dataPath", Json.str d), ("keyword", Json.str k), ("params", p),
      ("message", Json.str m), ("parentSchema", s)] ++
      (match c with
       | some cs => [("children", Json.arr (errorListToJson cs))]
       | none => []))

def errorListToJson : List ErrorObject → List Json
  | [] => []
  | e :: es => errorToJson e :: errorListToJson es

end

/-! ## Message formatter -/

/-- The `replace(/^\\./, "")` of the `required` branch: strip one
leading dot when present. -/
def stripLeadingDot (s : String) : String :=
  match s.data with
  | '.' :: rest => String.mk rest
  | _ => s

/-- The method `formatValidationError` of `SchemeErrorPrinter`, with
fuel consumed at each recursive call (recursion into `children` and the
fueled schema renderer); `root` is the printer's `schemeData`. -/
def formatValidationErrorF (root : Json) : Nat → ErrorObject → Option String
  | 0, _ => none
  | Nat.succ fuel, e =>
    let dataPath := "configuration" ++ e.dataPath
    if e.keyword == "additionalProperties" then
      (getSchemaPartTextF root fuel e.parentSchema none).map (fun t =>
        dataPath ++ " has an unknown property '" ++
          ((e.params.get "additionalProperty").getD Json.null).toStr ++
          "'. These properties are valid:\n" ++ t)
    else if e.keyword == "oneOf" || e.keyword == "anyOf" then
      match e.children with
      | some (c :: cs) =>
        match getSchemaPartTextF root fuel e.parentSchema none,
              (c :: cs).mapM (fun it =>
                (formatValidationErrorF root fuel it).map
                  (fun s => " * " ++ indent s "   " false)) with
        | some t, some lines =>
          some (dataPath ++ " should be one of these:\n" ++ t ++ "\n" ++
            "Details:\n" ++ String.intercalate "\n" (dedupFirst lines))
        | _, _ => none
      | _ =>
        (getSchemaPartTextF root fuel e.parentSchema none).map (fun t =>
          dataPath ++ " should be one of these:\n" ++ t)
    else if e.keyword == "enum" then
      if e.parentSchema.truthy &&
         ((e.parentSchema.get "enum").getD Json.null).truthy &&
         (((e.parentSchema.get "enum").getD Json.null).asArr.length == 1) then
        (getSchemaPartTextF root fuel e.parentSchema none).map (fun t =>
          dataPath ++ " should be " ++ t)
      else
        (getSchemaPartTextF root fuel e.parentSchema none).map (fun t =>
          dataPath ++ " should be one of these:\n" ++ t)
    else if e.keyword == "allOf" then
      (getSchemaPartTextF root fuel e.parentSchema none).map (fun t =>
        dataPath ++ " should be:\n" ++ t)
    else if e.keyword == "type" then
      let t := (e.params.get "type").getD Json.null
      if t == Json.str "object" then some (dataPath ++ " should be an object.")
      else if t == Json.str "string" then some (dataPath ++ " should be a string.")
      else if t == Json.str "boolean" then some (dataPath ++ " should be a boolean.")
      else if t == Json.str "number" then some (dataPath ++ " should be a number.")
      else if t == Json.str "array" then
        (getSchemaPartTextF root fuel e.parentSchema none).map (fun s =>
          dataPath ++ " should be an array:\n" ++ s)
      else
        (getSchemaPartTextF root fuel e.parentSchema none).map (fun s =>
          dataPath ++ " should be " ++ t.toStr ++ ":\n" ++ s)
    else if e.keyword == "instanceof" then
      (getSchemaPartTextF root fuel e.parentSchema none).map (fun t =>
        dataPath ++ " should be an instance of " ++ t ++ ".")
    else if e.keyword == "required" then
      let mp := stripLeadingDot ((e.params.get "missingProperty").getD Json.null).toStr
      (getSchemaPartTextF root fuel e.parentSchema (some ["properties", mp])).map (fun t =>
        dataPath ++ " misses the property '" ++ mp ++ "'.\n" ++ t)
    else if e.keyword == "minLength" || e.keyword == "minItems" then
      if (e.params.get "limit") == some (Json.num 1) then
        some (dataPath ++ " should not be empty.")
      else some (dataPath ++ " " ++ e.message)
    else if e.keyword == "absolutePath" then
      let baseMessage := dataPath ++ ": " ++ e.message
      if dataPath == "configuration.output.filename" then
        some (baseMessage ++ "\n" ++
          "Please use output.path to specify absolute path and output.filename for the file name.")
      else some baseMessage
    else
      (getSchemaPartTextF root fuel e.parentSchema none).map (fun t =>
        dataPath ++ " " ++ e.message ++ " (" ++ jsonPretty "" (errorToJson e) ++ ").\n" ++ t)

/-! ## Error tree builder (`filterErrors`), pure value model -/

/-- One iteration of the outer `for` loop of `filterErrors`: the inner
`newErrors.filter` callback is embedded as a left fold carrying the
kept nodes and the pending `children` collection, in iteration order. -/
def filterStep (newErrors : List ErrorObject) (e : ErrorObject) : List ErrorObject :=
  let st := newErrors.foldl
    (fun (st : List ErrorObject × List ErrorObject) old =>
      if jsIncludes old.dataPath e.dataPath then
        (st.1, st.2 ++ old.children.getD [] ++ [old.setChildren none])
      else (st.1 ++ [old], st.2))
    ([], [])
  st.1 ++ [if st.2.isEmpty then e else e.setChildren (some st.2)]

/-- The function `filterErrors` of the source: fold the incoming errors
through `filterStep` starting from the empty output sequence. -/
def filterErrors (errors : List ErrorObject) : List ErrorObject :=
  errors.foldl filterStep []

/-- The merge step as the specification words it: partition the current
output into absorbed (dataPath contains the incoming path as a
substring) and kept nodes, flatten each absorbed node's children
followed by the node itself with its children cleared into a pending
collection, attach the pending collection to the incoming error when
non-empty, and append it after the kept nodes. -/
def specStep (acc : List ErrorObject) (e : ErrorObject) : List ErrorObject :=
  let absorbed := acc.filter (fun old => jsIncludes old.dataPath e.dataPath)
  let kept := acc.filter (fun old => !(jsIncludes old.dataPath e.dataPath))
  let pending := (absorbed.map (fun old => old.children.getD [] ++ [old.setChildren none])).flatten
  kept ++ [if pending.isEmpty then e else e.setChildren (some pending)]

mutual

/-- Number of leaf records (records with no `children`) in one tree. -/
def leafCount : ErrorObject → Nat
  | .mk _ _ _ _ _ none => 1
  | .mk _ _ _ _ _ (some cs) => leafCountList cs

/-- Number of leaf records in a forest. -/
def leafCountList : List ErrorObject → Nat
  | [] => 0
  | e :: es => leafCount e + leafCountList es

end

mutual

/-- Number of records (every node counted) in one tree. -/
def nodeCount : ErrorObject → Nat
  | .mk _ _ _ _ _ none => 1
  | .mk _ _ _ _ _ (some cs) => 1 + nodeCountList cs

/-- Number of records in a forest. -/
def nodeCountList : List ErrorObject → Nat
  | [] => 0
  | e :: es => nodeCount e + nodeCountList es

end

/-! ## Error tree builder, heap model

The source mutates records in place (`oldError.children = null`,
`error.children = children`).  To make that mutation observable, this
second embedding keeps the records in a store (the heap); `children`
lists hold store indices (object references), and `filterErrors` is a
fold that threads the store. -/

/-- A heap-resident error record: `children` refers to store indices. -/
structure HErrorObject where
  dataPath : String
  keyword : String
  params : Json
  message : String
  parentSchema : Json
  children : Option (List Nat)

/-- Store lookup with a default record for out-of-range indices. -/
def hGet (store : List HErrorObject) (i : Nat) : HErrorObject :=
  (store.get? i).getD ⟨"", "", Json.null, "", Json.null, none⟩

/-- The callback of the inner `newErrors.filter` on the heap, carrying
the store, the kept indices, and the pending children indices: an
absorbed record has its `children` cleared in the store (the
`oldError.children = null` write) and moves, after its flattened
children, into the pending collection. -/
def hAbsorbStep (p : String) (acc : List HErrorObject × List Nat × List Nat) (j : Nat) :
    List HErrorObject × List Nat × List Nat :=
  let old := hGet acc.1 j
  if jsIncludes old.dataPath p then
    (acc.1.set j { old with children := none },
     acc.2.1,
     acc.2.2 ++ old.children.getD [] ++ [j])
  else (acc.1, acc.2.1 ++ [j], acc.2.2)

/-- Commit after the inner filter: append the incoming index to the
kept indices, and when the pending collection is non-empty write it to
the incoming record's `children` (the `error.children = children`
write). -/
def hCommit (r : List HErrorObject × List Nat × List Nat) (i : Nat) :
    List HErrorObject × List Nat :=
  if r.2.2.isEmpty then (r.1, r.2.1 ++ [i])
  else (r.1.set i { hGet r.1 i with children := some r.2.2 }, r.2.1 ++ [i])

/-- One outer iteration of `filterErrors` on the heap: filter the
current `newErrors` indices, clearing each absorbed record's `children`
in the store and collecting the pending children indices, then commit
the incoming record. -/
def filterErrorsHStep (st : List HErrorObject × List Nat) (i : Nat) :
    List HErrorObject × List Nat :=
  hCommit (st.2.foldl (hAbsorbStep ((hGet st.1 i).dataPath)) (st.1, [], [])) i

/-- The function `filterErrors` on the heap: the input sequence is the
store's records in index order; the result is the final store paired
with the output sequence of indices. -/
def filterErrorsH (store : List HErrorObject) : List HErrorObject × List Nat :=
  (List.range store.length).foldl filterErrorsHStep (store, [])

/-- Every field of a record except `children`. -/
def hShape (e : HErrorObject) : String × String × Json × String × Json :=
  (e.dataPath, e.keyword, e.params, e.message, e.parentSchema)

/-! ## Entry point -/

/-- The function `normaliseErrorMessages(errors, schemeData)`:
`"Configuration is invalid.\n"` followed by the merged errors, each
formatted, bulleted with `" - "`, indented, and joined with newlines. -/
def normaliseErrorMessages (root : Json) (fuel : Nat) (errors : List ErrorObject) :
    Option String :=
  ((filterErrors errors).mapM (fun it =>
      (formatValidationErrorF root fuel it).map (fun s => " - " ++ indent s "   " false))).map
    (fun lines => "Configuration is invalid.\n" ++ String.intercalate "\n" lines)

/-! ## Concrete fixtures used by witnesses and counterexamples -/

/-- The object schema of the specification's `formatSchema` example. -/
def exObjSchema : Json := Json.obj [("type", Json.str "object"),
  ("properties", Json.obj [("a", Json.obj []), ("b", Json.obj [])]),
  ("required", Json.arr [Json.str "a"])]

/-- The schema of the `required`-error end-to-end example. -/
def exApiKeySchema : Json := Json.obj [("properties", Json.obj [("apiKey",
  Json.obj [("type", Json.str "string"), ("minLength", Json.num 1)])]),
  ("required", Json.arr [Json.str "apiKey"])]

/-- A childless error at path `.a`. -/
def exErrA : ErrorObject := ErrorObject.mk ".a" "type" Json.null "" Json.null none

/-- A childless error at the document root (empty `dataPath`). -/
def exErrRoot : ErrorObject := ErrorObject.mk "" "type" Json.null "" Json.null none

/-- An `enum` error whose parent schema is a one-value enum. -/
def exErrEnum : ErrorObject :=
  ErrorObject.mk "" "enum" Json.null ""
    (Json.obj [("enum", Json.arr [Json.str "x"])]) none

/-- An `enum` error whose parent schema carries `type: "string"` next to
a one-value enum, so the renderer prints the type, not the value. -/
def exErrEnumTyped : ErrorObject :=
  ErrorObject.mk "" "enum" Json.null ""
    (Json.obj [("type", Json.str "string"), ("enum", Json.arr [Json.str "x"])]) none

/-- A `$ref` node pointing at `exArrayNode` in `exCycleRoot`. -/
def exRefNode : Json := Json.obj [("$ref", Json.str "x/n")]

/-- An array schema whose `items` is `exRefNode`, closing a reference
cycle through structural (`items`) recursion. -/
def exArrayNode : Json := Json.obj [("type", Json.str "array"), ("items", exRefNode)]

/-- A root document containing the `items`/`$ref` cycle. -/
def exCycleRoot : Json := Json.obj [("n", exArrayNode)]

/-- The heap for the mutation counterexample: a record at `.a` followed
by a record at the root path, both with no children. -/
def exStore : List HErrorObject :=
  [⟨".a", "type", Json.null, "", Json.null, none⟩,
   ⟨"", "type", Json.null, "", Json.null, none⟩]

/-! ## Helper lemmas -/

/-- Mapping a pure function over the result inside an option-valued
`mapM` commutes with `List.map`. -/
theorem mapM_map_option {α β γ : Type} (f : α → Option β) (g : β → γ) :
    ∀ (l : List α) (ms : List β), l.mapM f = some ms →
      l.mapM (fun x => (f x).map g) = some (ms.map g) := by
  intro l
  induction l with
  | nil =>
    intro ms h
    simp only [List.mapM_nil, pure] at h ⊢
    cases h
    rfl
  | cons a t ih =>
    intro ms h
    simp only [List.mapM_cons] at h ⊢
    cases hfa : f a with
    | none => rw [hfa] at h; simp at h
    | some b =>
      rw [hfa] at h
      cases ht : t.mapM f with
      | none => rw [ht] at h; simp at h
      | some bs =>
        rw [ht] at h
        rw [ih bs ht]
        simp at h ⊢
        cases h
        rfl

/-- C10: on the empty error sequence, `normaliseErrorMessages` returns
exactly the header `"Configuration is invalid.\n"` with no bullet
lines, for every root document and every fuel. -/
theorem claim10_normalise_empty (root : Json) (fuel : Nat) :
    normaliseErrorMessages root fuel [] = some "Configuration is invalid.\n" := rfl

/-- C8: whenever formatting succeeds, `normaliseErrorMessages` is the
header `"Configuration is invalid.\n"` followed by one `" - "`-bulleted,
indented group per node of `filterErrors errors`, the groups joined by
newlines. -/
theorem claim8_normalise_shape (root : Json) (fuel : Nat) (errors : List ErrorObject)
    (msgs : List String)
    (h : (filterErrors errors).mapM (formatValidationErrorF root fuel) = some msgs) :
    normaliseErrorMessages root fuel errors =
      some ("Configuration is invalid.\n" ++
        String.intercalate "\n" (msgs.map (fun m => " - " ++ indent m "   " false))) := by
  unfold normaliseErrorMessages
  rw [mapM_map_option _ _ _ _ h]
  rfl

/-- Closed instance of C8: one enum error, fuel 3. -/
theorem claim8_normalise_shape_witness :
    normaliseErrorMessages Json.null 3 [exErrEnum] =
      some ("Configuration is invalid.\n" ++
        String.intercalate "\n"
          (["configuration should be \"x\""].map (fun m => " - " ++ indent m "   " false))) :=
  claim8_normalise_shape Json.null 3 [exErrEnum] ["configuration should be \"x\""] rfl

/-- C5: on an object schema with a properties mapping, `formatSchema`
lists the property names in declaration order, required names bare and
the others suffixed `?`, appending a `...` entry exactly when
`additionalProperties` is truthy; in particular the specification's
example `{type:"object", properties:{a:{}, b:{}}, required:["a"]}`
renders as `object { a, b? }`. -/
theorem claim5_format_object_properties :
    (∀ (root : Json) (fuel : Nat) (prev : List Json)
       (fields : List (String × Json)) (reqs : List Json) (ap : Json),
       formatSchemaF root (fuel + 1)
         (Json.obj [("type", Json.str "object"), ("properties", Json.obj fields),
           ("required", Json.arr reqs), ("additionalProperties", ap)]) prev =
         some ("object \x7b " ++ String.intercalate ", "
           ((fields.map Prod.fst).map
              (fun name => if reqs.any (fun v => v == Json.str name) then name else name ++ "?") ++
            (if ap.truthy then ["..."] else [])) ++ " \x7d")) ∧
    formatSchemaF Json.null 1 exObjSchema [] = some "object \x7b a, b? \x7d" := by
  constructor
  · intro root fuel prev fields reqs ap
    rfl
  · rfl

/-- C6: a `required` error for missing property `apiKey` (dot-prefixed
or not) under the schema
`{properties:{apiKey:{type:"string", minLength:1}}, required:["apiKey"]}`
formats as `configuration misses the property 'apiKey'.` followed by the
sub-schema rendered from `properties/apiKey`, namely `non-empty string`. -/
theorem claim6_required_apiKey (root : Json) (fuel : Nat) (msg : String) (mp : String)
    (h : mp = "apiKey" ∨ mp = ".apiKey") :
    formatValidationErrorF root (fuel + 2)
      (ErrorObject.mk "" "required" (Json.obj [("missingProperty", Json.str mp)]) msg
        exApiKeySchema none) =
      some "configuration misses the property 'apiKey'.\nnon-empty string" := by
  rcases h with rfl | rfl
  · rfl
  · rfl

/-- Closed instance of C6 at the dot-prefixed missing-property name. -/
theorem claim6_required_apiKey_witness :
    formatValidationErrorF Json.null 2
      (ErrorObject.mk "" "required" (Json.obj [("missingProperty", Json.str ".apiKey")]) ""
        exApiKeySchema none) =
      some "configuration misses the property 'apiKey'.\nnon-empty string" :=
  claim6_required_apiKey Json.null 0 "" ".apiKey" (Or.inr rfl)

/-- C7 (amended): for an `enum` error whose parent schema consists of
just the `enum` list, the message is `<path> should be <value>` (the
single enum value in literal JSON form) when the enum has exactly one
value, and `<path> should be one of these:` followed by the JSON forms
of the values joined with ` | ` otherwise. -/
theorem claim7_enum_message (root : Json) (fuel : Nat) (dp msg : String) (params : Json)
    (ch : Option (List ErrorObject)) (vs : List Json) :
    formatValidationErrorF root (fuel + 2)
      (ErrorObject.mk dp "enum" params msg (Json.obj [("enum", Json.arr vs)]) ch) =
      some (if vs.length == 1
        then "configuration" ++ dp ++ " should be " ++
          String.intercalate " | " (vs.map jsonStringify)
        else "configuration" ++ dp ++ " should be one of these:\n" ++
          String.intercalate " | " (vs.map jsonStringify)) := by
  have key : formatValidationErrorF root (fuel + 2)
      (ErrorObject.mk dp "enum" params msg (Json.obj [("enum", Json.arr vs)]) ch) =
      if vs.length == 1
      then (getSchemaPartTextF root (fuel + 1) (Json.obj [("enum", Json.arr vs)]) none).map
             (fun t => "configuration" ++ dp ++ " should be " ++ t)
      else (getSchemaPartTextF root (fuel + 1) (Json.obj [("enum", Json.arr vs)]) none).map
             (fun t => "configuration" ++ dp ++ " should be one of these:\n" ++ t) := rfl
  have g : getSchemaPartTextF root (fuel + 1) (Json.obj [("enum", Json.arr vs)]) none =
      some (String.intercalate " | " (vs.map jsonStringify)) := rfl
  rw [key, g]
  cases hb : vs.length == 1 <;> simp [hb]

/-- Counterexample to C7 as stated: for an `enum` error whose parent
schema also carries `type: "string"` beside a one-value enum, the
formatter prints the rendered type (`string`), not the enum value. -/
theorem claim7_enum_counterexample :
    formatValidationErrorF Json.null 3 exErrEnumTyped =
      some "configuration should be string" ∧
    ("configuration should be string" : String) ≠
      "configuration should be " ++ jsonStringify (Json.str "x") := by
  constructor
  · rfl
  · decide

/-- Bool-valued membership distributes over list append. -/
theorem contains_append_json (l1 l2 : List Json) (a : Json) :
    (l1 ++ l2).contains a = (l1.contains a || l2.contains a) := by
  induction l1 with
  | nil => simp
  | cons x xs ih =>
    simp only [List.cons_append, List.contains_cons, ih, Bool.or_assoc]

/-- C2 (failing input): on the document `{"n": {"type":"array",
"items":{"$ref":"x/n"}}}` the render of node `n` runs out of any amount
of fuel — `formatSchema` recurses forever.  The cycle guard records only
the `$ref`-holding node (`items`'s value) in `prevSchemas` while testing
the resolved node (the array node) for membership, so the guard never
fires and no `"(recursive)"` is produced. -/
theorem claim2_formatSchema_items_ref_cycle_diverges :
    ∀ fuel : Nat, formatSchemaF exCycleRoot fuel exArrayNode [] = none := by
  have aux : ∀ (fuel : Nat) (c : List Json), c.contains exArrayNode = false →
      formatSchemaF exCycleRoot fuel exArrayNode c = none ∧
      formatSchemaF exCycleRoot fuel exRefNode c = none := by
    intro fuel
    induction fuel with
    | zero => intro c _; exact ⟨rfl, rfl⟩
    | succ f ih =>
      intro c hc
      have e1 : formatSchemaF exCycleRoot (f + 1) exArrayNode c =
          (formatSchemaF exCycleRoot f exRefNode c).map (fun s => "[" ++ s ++ "]") := rfl
      have e2 : formatSchemaF exCycleRoot (f + 1) exRefNode c =
          (if c.contains exArrayNode then some "(recursive)"
           else formatSchemaF exCycleRoot f exArrayNode (c ++ [exRefNode])) := rfl
      refine ⟨?_, ?_⟩
      · rw [e1, (ih c hc).2]
        rfl
      · rw [e2, hc]
        have hc2 : (c ++ [exRefNode]).contains exArrayNode = false := by
          rw [contains_append_json, hc]
          rfl
        simpa using (ih _ hc2).1
  intro fuel
  exact (aux fuel [] rfl).1

/-! ## Characterization of the merge step -/

/-- The inner `newErrors.filter` fold of `filterStep`, characterized as
a partition: kept nodes in order, and the pending children collection
flattened from the absorbed nodes in order. -/
theorem filterStep_inner (p : String) (acc : List ErrorObject) :
    ∀ (k c : List ErrorObject),
      acc.foldl
        (fun (st : List ErrorObject × List ErrorObject) old =>
          if jsIncludes old.dataPath p then
            (st.1, st.2 ++ old.children.getD [] ++ [old.setChildren none])
          else (st.1 ++ [old], st.2))
        (k, c) =
      (k ++ acc.filter (fun old => !(jsIncludes old.dataPath p)),
       c ++ ((acc.filter (fun old => jsIncludes old.dataPath p)).map
         (fun old => old.children.getD [] ++ [old.setChildren none])).flatten) := by
  induction acc with
  | nil => intro k c; simp
  | cons a t ih =>
    intro k c
    by_cases h : jsIncludes a.dataPath p
    · simp only [List.foldl_cons, h, if_pos, List.filter_cons, Bool.not_true,
        List.map_cons, List.flatten_cons]
      rw [ih]
      simp [h, List.append_assoc]
    · simp only [List.foldl_cons, List.filter_cons]
      rw [if_neg h, ih]
      simp [h, List.append_assoc]

/-- Each step of `filterErrors` equals the specification's partition
step. -/
theorem filterStep_eq (acc : List ErrorObject) (e : ErrorObject) :
    filterStep acc e = specStep acc e := by
  unfold filterStep specStep
  rw [filterStep_inner]
  simp

/-- The merge as a whole is the fold of the specification's step. -/
theorem filterErrors_eq_spec (errors : List ErrorObject) :
    filterErrors errors = errors.foldl specStep [] := by
  unfold filterErrors
  suffices aux : ∀ (l : List ErrorObject) (acc : List ErrorObject),
      l.foldl filterStep acc = l.foldl specStep acc from aux errors []
  intro l
  induction l with
  | nil => intro acc; rfl
  | cons a t ih => intro acc; rw [List.foldl_cons, List.foldl_cons, filterStep_eq, ih]

/-- C1: `filterErrors` processes the errors in order over an initially
empty output sequence, and each step removes the output nodes whose
`dataPath` contains the incoming path as a substring, flattens their
children together with the cleared nodes themselves into a pending
collection, attaches that collection to the incoming error iff it is
non-empty, and appends the error after the kept nodes. -/
theorem claim1_filterErrors_matches_spec_fold (errors : List ErrorObject) :
    filterErrors errors = errors.foldl specStep [] :=
  filterErrors_eq_spec errors

/-! ## Root-path absorption -/

/-- Every string contains the empty pattern. -/
theorem jsIncludes_empty_pat (s : String) : jsIncludes s "" = true := by
  unfold jsIncludes
  cases s.data with
  | nil => rfl
  | cons b bs => rfl

/-- A merge step never returns an empty output sequence. -/
theorem filterStep_ne_nil (acc : List ErrorObject) (e : ErrorObject) :
    filterStep acc e ≠ [] := by
  rw [filterStep_eq]
  unfold specStep
  intro h
  rcases List.append_eq_nil.mp h with ⟨-, h2⟩
  exact List.cons_ne_nil _ _ h2

/-- The merge of a non-empty error sequence is non-empty. -/
theorem filterErrors_ne_nil (es : List ErrorObject) (h : es ≠ []) :
    filterErrors es ≠ [] := by
  cases es with
  | nil => exact absurd rfl h
  | cons a t =>
    unfold filterErrors
    rw [List.foldl_cons]
    have aux : ∀ (l : List ErrorObject) (acc : List ErrorObject), acc ≠ [] →
        l.foldl filterStep acc ≠ [] := by
      intro l
      induction l with
      | nil => intro acc hacc; simpa using hacc
      | cons b r ih => intro acc _; rw [List.foldl_cons]; exact ih _ (filterStep_ne_nil acc b)
    exact aux t (filterStep [] a) (filterStep_ne_nil [] a)

/-- C4: an error at the empty (root) `dataPath` arriving after other
errors absorbs every node of the current output, so the output becomes
that single error with all previously-seen nodes (children flattened,
then the cleared nodes themselves) folded into its children. -/
theorem claim4_root_error_absorbs_all (es : List ErrorObject) (e : ErrorObject)
    (h1 : e.dataPath = "") (h2 : es ≠ []) :
    filterErrors (es ++ [e]) =
      [e.setChildren (some (((filterErrors es).map
        (fun old => old.children.getD [] ++ [old.setChildren none])).flatten))] := by
  have hfold : filterErrors (es ++ [e]) = filterStep (filterErrors es) e := by
    unfold filterErrors
    rw [List.foldl_append]
    rfl
  rw [hfold, filterStep_eq]
  unfold specStep
  rw [h1]
  have hkept : ∀ (l : List ErrorObject),
      l.filter (fun old => !(jsIncludes old.dataPath "")) = [] := by
    intro l
    induction l with
    | nil => rfl
    | cons a t ih => simp [List.filter_cons, jsIncludes_empty_pat, ih]
  have habs : ∀ (l : List ErrorObject),
      l.filter (fun old => jsIncludes old.dataPath "") = l := by
    intro l
    induction l with
    | nil => rfl
    | cons a t ih => simp [List.filter_cons, jsIncludes_empty_pat, ih]
  rw [hkept, habs]
  obtain ⟨a, t, hL⟩ := List.exists_cons_of_ne_nil (filterErrors_ne_nil es h2)
  rw [hL]
  have hne : (((a :: t).map
      (fun old => old.children.getD [] ++ [old.setChildren none])).flatten).isEmpty = false := by
    cases hca : a.children.getD [] with
    | nil => simp [hca]
    | cons x xs => simp [hca]
  simp [hne]

/-- Closed instance of C4: the root-path error arriving second absorbs
the `.a` error. -/
theorem claim4_root_error_absorbs_all_witness :
    filterErrors ([exErrA] ++ [exErrRoot]) =
      [exErrRoot.setChildren (some (((filterErrors [exErrA]).map
        (fun old => old.children.getD [] ++ [old.setChildren none])).flatten))] :=
  claim4_root_error_absorbs_all [exErrA] exErrRoot rfl (by simp)

/-! ## Record counting -/

/-- Counting distributes over list append. -/
theorem nodeCountList_append (l1 l2 : List ErrorObject) :
    nodeCountList (l1 ++ l2) = nodeCountList l1 + nodeCountList l2 := by
  induction l1 with
  | nil => simp [nodeCountList]
  | cons a t ih => simp [nodeCountList, ih, Nat.add_assoc]

/-- Flattening an absorbed node (its children followed by the node
itself with children cleared) preserves its record count. -/
theorem nodeCountList_absorbed (old : ErrorObject) :
    nodeCountList (old.children.getD [] ++ [old.setChildren none]) = nodeCount old := by
  cases old with
  | mk d k p m s c =>
    cases c with
    | none =>
      simp [ErrorObject.children, ErrorObject.setChildren, nodeCountList, nodeCount]
    | some cs =>
      simp [ErrorObject.children, ErrorObject.setChildren, nodeCountList, nodeCount,
        nodeCountList_append, Nat.add_comm]

/-- The pending children collection of a step carries exactly the
records of the absorbed nodes. -/
theorem nodeCountList_pending (l : List ErrorObject) :
    nodeCountList ((l.map
      (fun old => old.children.getD [] ++ [old.setChildren none])).flatten) =
      nodeCountList l := by
  induction l with
  | nil => rfl
  | cons a t ih =>
    rw [List.map_cons, List.flatten_cons, nodeCountList_append, nodeCountList_absorbed, ih]
    rfl

/-- Kept and absorbed nodes together carry the records of the whole
output sequence. -/
theorem nodeCountList_partition (p : ErrorObject → Bool) (l : List ErrorObject) :
    nodeCountList (l.filter (fun x => !(p x))) + nodeCountList (l.filter p) =
      nodeCountList l := by
  induction l with
  | nil => rfl
  | cons a t ih =>
    cases h : p a <;> simp [List.filter_cons, h, nodeCountList] <;> omega

/-- A merge step on a childless incoming error adds exactly one record
to the output forest. -/
theorem nodeCount_specStep (acc : List ErrorObject) (e : ErrorObject)
    (he : e.children = none) :
    nodeCountList (specStep acc e) = nodeCountList acc + 1 := by
  unfold specStep
  rw [nodeCountList_append]
  set pnd := ((acc.filter (fun old => jsIncludes old.dataPath e.dataPath)).map
    (fun old => old.children.getD [] ++ [old.setChildren none])).flatten with hpnd
  have hcount : nodeCountList [if pnd.isEmpty then e else e.setChildren (some pnd)] =
      1 + nodeCountList pnd := by
    cases hp : pnd.isEmpty
    · cases e with
      | mk d k p m s c =>
        simp [ErrorObject.setChildren, nodeCountList, nodeCount]
    · have : pnd = [] := by simpa [List.isEmpty_iff] using hp
      rw [this] at *
      cases e with
      | mk d k p m s c =>
        cases he
        simp [nodeCountList, nodeCount]
  rw [hcount, hpnd, nodeCountList_pending]
  have := nodeCountList_partition (fun old => jsIncludes old.dataPath e.dataPath) acc
  omega

/-- C3 (amended): on inputs whose records carry no pre-existing
children — the shape the external validator produces — the merge drops
nothing: the total number of records reachable in the output forest
(every node counted, internal nodes included) equals the input length. -/
theorem claim3_merge_preserves_record_count (errors : List ErrorObject)
    (h : ∀ e ∈ errors, e.children = none) :
    nodeCountList (filterErrors errors) = errors.length := by
  rw [filterErrors_eq_spec]
  suffices aux : ∀ (l : List ErrorObject) (acc : List ErrorObject),
      (∀ e ∈ l, e.children = none) →
      nodeCountList (l.foldl specStep acc) = nodeCountList acc + l.length by
    simpa [nodeCountList] using aux errors [] h
  intro l
  induction l with
  | nil => intro acc _; simp
  | cons a t ih =>
    intro acc hl
    rw [List.foldl_cons]
    rw [ih (specStep acc a) (fun e he => hl e (List.mem_cons_of_mem a he))]
    rw [nodeCount_specStep acc a (hl a (List.mem_cons_self a t))]
    simp [Nat.add_assoc, Nat.add_comm]

/-- Closed instance of the amended C3: two childless errors merge into
a forest of two records. -/
theorem claim3_merge_preserves_record_count_witness :
    nodeCountList (filterErrors [exErrA, exErrRoot]) =
      ([exErrA, exErrRoot] : List ErrorObject).length :=
  claim3_merge_preserves_record_count [exErrA, exErrRoot] (by
    intro e he
    rcases List.mem_cons.mp he with rfl | he2
    · rfl
    · rcases List.mem_cons.mp he2 with rfl | he3
      · rfl
      · cases he3)

/-- Counterexample to C3 as stated: merging the childless errors at
`.a` and at the root yields one root node with one child, so only one
record is a leaf (has no children), while the input has two records. -/
theorem claim3_leaf_count_counterexample :
    ¬ (leafCountList (filterErrors [exErrA, exErrRoot]) =
        ([exErrA, exErrRoot] : List ErrorObject).length) := by
  decide

/-! ## Mutation analysis on the heap model -/

/-- Overwriting a store slot with a record of the same shape (same
fields apart from `children`) preserves every slot's shape. -/
theorem hShape_set (σ : List HErrorObject) (j : Nat) (r : HErrorObject)
    (hr : hShape r = hShape (hGet σ j)) : ∀ i : Nat,
    ((σ.set j r).get? i).map hShape = (σ.get? i).map hShape := by
  induction σ generalizing j with
  | nil => intro i; rfl
  | cons a t ih =>
    intro i
    cases j with
    | zero =>
      cases i with
      | zero => simpa using hr
      | succ i2 => rfl
    | succ j2 =>
      cases i with
      | zero => rfl
      | succ i2 => exact ih j2 hr i2

/-- The inner absorption fold only clears `children` fields: every
slot's shape is preserved. -/
theorem hAbsorb_fold_shape (p : String) (js : List Nat) :
    ∀ (acc : List HErrorObject × List Nat × List Nat) (i : Nat),
      ((js.foldl (hAbsorbStep p) acc).1.get? i).map hShape =
        (acc.1.get? i).map hShape := by
  induction js with
  | nil => intro acc i; rfl
  | cons j rest ih =>
    intro acc i
    rw [List.foldl_cons, ih]
    unfold hAbsorbStep
    by_cases h : jsIncludes (hGet acc.1 j).dataPath p
    · simp only [h, if_pos]
      exact hShape_set acc.1 j { hGet acc.1 j with children := none } rfl i
    · simp [h]

/-- One outer merge iteration only writes `children` fields: every
slot's shape is preserved. -/
theorem hCommit_shape (r : List HErrorObject × List Nat × List Nat) (idx : Nat) (i : Nat) :
    ((hCommit r idx).1.get? i).map hShape = (r.1.get? i).map hShape := by
  unfold hCommit
  split
  · rfl
  · exact hShape_set r.1 idx { hGet r.1 idx with children := some r.2.2 } rfl i

/-- One outer merge iteration only writes `children` fields: every
slot's shape is preserved. -/
theorem filterErrorsHStep_shape (st : List HErrorObject × List Nat) (idx : Nat) (i : Nat) :
    ((filterErrorsHStep st idx).1.get? i).map hShape = (st.1.get? i).map hShape := by
  unfold filterErrorsHStep
  rw [hCommit_shape]
  exact hAbsorb_fold_shape ((hGet st.1 idx).dataPath) st.2 (st.1, [], []) i

/-- C9 (amended): the merge does mutate input records — but only their
`children` fields.  Every other field (`dataPath`, `keyword`, `params`,
`message`, `parentSchema`) of every record in the store is unchanged by
`filterErrorsH`. -/
theorem claim9_merge_mutates_only_children (store : List HErrorObject) (i : Nat) :
    ((filterErrorsH store).1.get? i).map hShape = (store.get? i).map hShape := by
  unfold filterErrorsH
  suffices aux : ∀ (idxs : List Nat) (st : List HErrorObject × List Nat),
      ((idxs.foldl filterErrorsHStep st).1.get? i).map hShape =
        (st.1.get? i).map hShape from aux _ _
  intro idxs
  induction idxs with
  | nil => intro st; rfl
  | cons j rest ih =>
    intro st
    rw [List.foldl_cons, ih]
    exact filterErrorsHStep_shape st j i

/-- Counterexample to C9 as stated: running the merge on the two-record
store (paths `.a` then `""`) changes the store — the root record's
`children` field is written with the absorbed record's index. -/
theorem claim9_merge_mutates_counterexample :
    (filterErrorsH exStore).1 ≠ exStore :=
  fun h => absurd (congrArg (fun l => l.map HErrorObject.children) h) (by decide)

end ReadConfigFile
